import Mathlib

/-!
Verification of the catmd core (src/main.rs): line-diff engine, snapshot
diff mapping, markdown renderer state machine, snapshot store append, and
navigation state, shallowly embedded in Lean.
-/

set_option linter.unusedVariables false
set_option linter.unreachableTactic false
set_option linter.unusedTactic false

/-! ## Diff engine data model (src/main.rs, `DiffHunk`, `LineDiffResult`, `DiffOp`) -/

structure DiffHunk where
  start_line : Nat
  end_line : Nat
  added : Nat
  removed : Nat
deriving DecidableEq, Repr

structure LineDiffResult where
  added : Nat
  removed : Nat
  hunks : List DiffHunk
  overflow : Bool
deriving DecidableEq, Repr

instance : Inhabited LineDiffResult := ⟨⟨0, 0, [], false⟩⟩

inductive DiffOp where
  | equal
  | add
  | remove
deriving DecidableEq, Repr

/-- Length of the common leading run of equal lines (the `prefix` loop of
`compute_line_diff`). -/
def commonPrefixLen : List String → List String → Nat
  | a :: as, b :: bs => if a = b then commonPrefixLen as bs + 1 else 0
  | _, _ => 0

/-- `u32::saturating_add` on values already below `2^32`. -/
def satAdd32 (a b : Nat) : Nat := min (a + b) (2 ^ 32 - 1)

/-- The LCS table of `compute_line_diff`, fueled for structural recursion:
each recursive call lowers `i + j` by at least one while spending exactly one
unit of fuel, so with fuel at least `i + j` the fuel never runs out and the
`fuel = 0` clause (then forced to `i = j = 0`) agrees with the `i = 0` row. -/
def lcsTableF (o n : List String) : Nat → Nat → Nat → Nat
  | 0, _, _ => 0
  | _ + 1, 0, _ => 0
  | _ + 1, _ + 1, 0 => 0
  | fuel + 1, i + 1, j + 1 =>
    if o.getD i "" = n.getD j "" then satAdd32 (lcsTableF o n fuel i j) 1
    else max (lcsTableF o n fuel i (j + 1)) (lcsTableF o n fuel (i + 1) j)

/-- `lcsTable o n i j` is `table[i*cols+j]` for the stripped middles `o` and
`n`; row/column 0 is zero, and the body matches the double loop filling the
table. -/
def lcsTable (o n : List String) (i j : Nat) : Nat := lcsTableF o n (i + j) i j

/-- The backtracking loop of `compute_line_diff`, fueled the same way. -/
def backtrackOpsF (o n : List String) : Nat → Nat → Nat → List DiffOp
  | 0, _, _ => []
  | _ + 1, 0, 0 => []
  | _ + 1, i + 1, 0 => List.replicate (i + 1) DiffOp.remove
  | _ + 1, 0, j + 1 => List.replicate (j + 1) DiffOp.add
  | fuel + 1, i + 1, j + 1 =>
    if o.getD i "" = n.getD j "" then backtrackOpsF o n fuel i j ++ [DiffOp.equal]
    else
      let up := lcsTable o n i (j + 1)
      let left := lcsTable o n (i + 1) j
      if up ≥ left then backtrackOpsF o n fuel i (j + 1) ++ [DiffOp.remove]
      else backtrackOpsF o n fuel (i + 1) j ++ [DiffOp.add]

/-- The backtracking loop of `compute_line_diff`, producing the operation list
in source order (the Rust code builds `ops_reversed` and reverses it; pushing
the op for the larger indices after the recursive result is the same list). -/
def backtrackOps (o n : List String) (i j : Nat) : List DiffOp :=
  backtrackOpsF o n (i + j) i j

/-- State threaded through the op-walking loop of `compute_line_diff`:
the closed hunks, the open hunk, the running `new_index`, and the totals. -/
structure DiffState where
  hunks : List DiffHunk
  current : Option DiffHunk
  newIndex : Nat
  added : Nat
  removed : Nat
deriving Repr

/-- One iteration of the `for op in ops_reversed` loop of `compute_line_diff`. -/
def diffStep (st : DiffState) (op : DiffOp) : DiffState :=
  match op with
  | DiffOp.equal =>
    { st with
      newIndex := st.newIndex + 1
      hunks := st.hunks ++ st.current.toList
      current := none }
  | DiffOp.add =>
    let h := st.current.getD ⟨st.newIndex, st.newIndex, 0, 0⟩
    { st with
      added := st.added + 1
      current := some { h with added := h.added + 1, end_line := st.newIndex + 1 }
      newIndex := st.newIndex + 1 }
  | DiffOp.remove =>
    let h := st.current.getD ⟨st.newIndex, st.newIndex, 0, 0⟩
    { st with
      removed := st.removed + 1
      current := some { h with removed := h.removed + 1 } }

/-- The part of `compute_line_diff` after prefix/suffix stripping: the chain of
early returns, the overflow guard (`rows = old_mid.len()+1`,
`cols = new_mid.len()+1`, written inline), and the LCS walk. -/
def diffCore (pre : Nat) (old_mid new_mid : List String) (max_cells : Nat) : LineDiffResult :=
  if old_mid = [] ∧ new_mid = [] then ⟨0, 0, [], false⟩
  else if old_mid = [] then
    ⟨new_mid.length, 0, [⟨pre, pre + new_mid.length, new_mid.length, 0⟩], false⟩
  else if new_mid = [] then
    ⟨0, old_mid.length, [⟨pre, pre, 0, old_mid.length⟩], false⟩
  else if (old_mid.length + 1) * (new_mid.length + 1) > max_cells then
    ⟨new_mid.length, old_mid.length,
      [⟨pre, pre + new_mid.length, new_mid.length, old_mid.length⟩], true⟩
  else
    let st := (backtrackOps old_mid new_mid old_mid.length new_mid.length).foldl
      diffStep ⟨[], none, pre, 0, 0⟩
    ⟨st.added, st.removed, st.hunks ++ st.current.toList, false⟩

/-- `compute_line_diff(old_lines, new_lines, max_cells)` from src/main.rs.
The suffix loop (walking `old_end`/`new_end` down while both stay above the
prefix) is the common leading run of the reversed post-prefix rests. -/
def compute_line_diff (old_lines new_lines : List String) (max_cells : Nat) : LineDiffResult :=
  let pre := commonPrefixLen old_lines new_lines
  let oldRest := old_lines.drop pre
  let newRest := new_lines.drop pre
  let suf := commonPrefixLen oldRest.reverse newRest.reverse
  let old_mid := oldRest.take (oldRest.length - suf)
  let new_mid := newRest.take (newRest.length - suf)
  diffCore pre old_mid new_mid max_cells

def DIFF_MAX_CELLS : Nat := 2000000

/-! ## Rendered document data model (src/main.rs, `StyledSegment` .. `RenderedDocument`) -/

inductive TermColor where
  | yellow
  | lightMagenta
  | lightCyan
  | cyan
  | darkGray
  | lightGreen
  | lightBlue
  | lightYellow
  | rgb (r g b : Nat)
deriving DecidableEq, Repr

structure TermStyle where
  fg : Option TermColor := none
  bg : Option TermColor := none
  bold : Bool := false
  italic : Bool := false
  crossedOut : Bool := false
  underlined : Bool := false
deriving DecidableEq, Repr

instance : Inhabited TermStyle := ⟨{}⟩

structure StyledSegment where
  text : String
  style : TermStyle
deriving DecidableEq, Repr

structure RenderedLine where
  segments : List StyledSegment := []
  plain : String := ""
deriving DecidableEq, Repr

instance : Inhabited RenderedLine := ⟨{}⟩

structure LinkRef where
  label : String
  target : String
  line : Nat
deriving DecidableEq, Repr

structure TocEntry where
  level : Nat
  title : String
  line : Nat
deriving DecidableEq, Repr

structure RenderedDocument where
  lines : List RenderedLine := []
  toc : List TocEntry := []
  links : List LinkRef := []
deriving DecidableEq, Repr

instance : Inhabited RenderedDocument := ⟨{}⟩

/-- `usize::MAX`, the sentinel a `LinkRef.line` is created with. -/
def USIZE_MAX : Nat := 2 ^ 64 - 1

/-- `usize_to_u16_saturating` from src/main.rs. -/
def usize_to_u16_saturating (value : Nat) : Nat := min value 65535

/-- `plain_render(doc)` from src/main.rs: fold over the enumerated lines,
appending each plain text and a newline whenever more lines follow. -/
def plain_render (doc : RenderedDocument) : String :=
  doc.lines.enum.foldl
    (fun out p =>
      let out := out ++ p.2.plain
      if p.1 + 1 < doc.lines.length then out ++ "\n" else out)
    ""

/-- The spec's words for the plain output: the lines' plain texts joined by a
single newline separator, with no trailing newline. -/
def joinPlainSpec : List String → String
  | [] => ""
  | [x] => x
  | x :: xs => x ++ "\n" ++ joinPlainSpec xs

/-! ## Section mapping (src/main.rs, `heading_index_for_line` ..
`build_snapshot_diff`) -/

/-- `Iterator::rposition`: index of the last element satisfying `p`. -/
def rposition {α : Type} (p : α → Bool) : List α → Option Nat
  | [] => none
  | x :: xs =>
    match rposition p xs with
    | some i => some (i + 1)
    | none => if p x then some 0 else none

/-- `heading_index_for_line(toc, line)` from src/main.rs. -/
def heading_index_for_line (toc : List TocEntry) (line : Nat) : Option Nat :=
  if toc = [] then none
  else some ((rposition (fun entry => entry.line ≤ line) toc).getD 0)

/-- `hunk_anchor_line(hunk, total_lines)` from src/main.rs. -/
def hunk_anchor_line (hunk : DiffHunk) (total_lines : Nat) : Nat :=
  if total_lines = 0 then 0
  else if hunk.end_line > hunk.start_line then min hunk.start_line (total_lines - 1)
  else min (hunk.start_line - 1) (total_lines - 1)

/-- `touched_toc_indices_for_hunk(hunk, toc, total_lines)` from src/main.rs. -/
def touched_toc_indices_for_hunk (hunk : DiffHunk) (toc : List TocEntry)
    (total_lines : Nat) : List Nat :=
  if toc = [] then []
  else
    let start_line := if total_lines = 0 then 0 else min hunk.start_line (total_lines - 1)
    let end_line :=
      if total_lines = 0 then 0
      else if hunk.end_line > hunk.start_line then min (hunk.end_line - 1) (total_lines - 1)
      else min (hunk.start_line - 1) (total_lines - 1)
    let lo := min start_line end_line
    let hi := max start_line end_line
    match heading_index_for_line toc lo with
    | none => []
    | some start_idx =>
      let end_idx := (heading_index_for_line toc hi).getD start_idx
      List.range' start_idx (end_idx + 1 - start_idx)

structure SectionDelta where
  added : Nat := 0
  removed : Nat := 0
deriving DecidableEq, Repr

instance : Inhabited SectionDelta := ⟨{}⟩

/-- `BTreeMap<usize, SectionDelta>` modelled as an association list sorted by
strictly increasing key. -/
abbrev SectionMap := List (Nat × SectionDelta)

/-- `map.entry(k).or_default()` (no further mutation): ordered insert of the
default value when the key is absent. -/
def sectionEntryOrDefault (m : SectionMap) (k : Nat) : SectionMap :=
  match m with
  | [] => [(k, {})]
  | (k', v) :: rest =>
    if k < k' then (k, ({} : SectionDelta)) :: (k', v) :: rest
    else if k = k' then (k', v) :: rest
    else (k', v) :: sectionEntryOrDefault rest k

/-- `map.entry(k).or_default()` followed by saturating accumulation of a
hunk's added/removed counts. -/
def sectionAdd (m : SectionMap) (k : Nat) (a r : Nat) : SectionMap :=
  match m with
  | [] => [(k, ⟨a, r⟩)]
  | (k', v) :: rest =>
    if k < k' then (k, (⟨a, r⟩ : SectionDelta)) :: (k', v) :: rest
    else if k = k' then (k', ⟨v.added + a, v.removed + r⟩) :: rest
    else (k', v) :: sectionAdd rest k a r

/-- The body of the `for hunk in &line_diff.hunks` loop of
`build_snapshot_diff`. -/
def applySectionHunk (toc : List TocEntry) (total_lines : Nat) (m : SectionMap)
    (hunk : DiffHunk) : SectionMap :=
  let touched := touched_toc_indices_for_hunk hunk toc total_lines
  let m := touched.foldl sectionEntryOrDefault m
  match touched.head? with
  | some primary => sectionAdd m primary hunk.added hunk.removed
  | none => m

structure SnapshotDiff where
  added : Nat := 0
  removed : Nat := 0
  hunks : List DiffHunk := []
  section_deltas : SectionMap := []
  top_section : Option String := none
  overflow : Bool := false
deriving DecidableEq, Repr

instance : Inhabited SnapshotDiff := ⟨{}⟩

/-- `build_snapshot_diff(previous, next)` from src/main.rs. -/
def build_snapshot_diff (previous next : RenderedDocument) : SnapshotDiff :=
  let old_lines := previous.lines.map (fun line => line.plain)
  let new_lines := next.lines.map (fun line => line.plain)
  let line_diff := compute_line_diff old_lines new_lines DIFF_MAX_CELLS
  let section_deltas :=
    line_diff.hunks.foldl (applySectionHunk next.toc next.lines.length) []
  let top_section :=
    section_deltas.head?.bind
      (fun kv => (next.toc.get? kv.1).map (fun entry => entry.title))
  { added := line_diff.added
    removed := line_diff.removed
    hunks := line_diff.hunks
    section_deltas := section_deltas
    top_section := top_section
    overflow := line_diff.overflow }

/-! ## Markdown renderer state machine (src/main.rs, `Renderer`)

The pull parser (pulldown_cmark) and the syntax highlighter (syntect) are
external collaborators: the renderer is embedded as a state machine over the
event stream the parser supplies, and the per-line token production of the
highlighter is abstracted as a function parameter `hl` taking the code-block
language and the raw line. -/

inductive HeadingLevel where
  | h1 | h2 | h3 | h4 | h5 | h6
deriving DecidableEq, Repr

/-- `Renderer::heading_level_u8`. -/
def headingLevelU8 : HeadingLevel → Nat
  | HeadingLevel.h1 => 1
  | HeadingLevel.h2 => 2
  | HeadingLevel.h3 => 3
  | HeadingLevel.h4 => 4
  | HeadingLevel.h5 => 5
  | HeadingLevel.h6 => 6

inductive CodeBlockKind where
  | fenced (name : String)
  | indented
deriving DecidableEq, Repr

inductive TableAlignment where
  | noAlign | left | center | right
deriving DecidableEq, Repr

inductive MdTag where
  | paragraph
  | heading (level : HeadingLevel)
  | blockQuote
  | codeBlock (kind : CodeBlockKind)
  | list (start : Option Nat)
  | item
  | emphasis
  | strong
  | strikethrough
  | link (dest_url : String)
  | image (dest_url : String)
  | table (alignments : List TableAlignment)
  | tableHead
  | tableRow
  | tableCell
  | otherTag
deriving DecidableEq, Repr

inductive MdTagEnd where
  | paragraph
  | heading (level : HeadingLevel)
  | blockQuote
  | codeBlock
  | list
  | item
  | emphasis
  | strong
  | strikethrough
  | link
  | image
  | table
  | tableHead
  | tableRow
  | tableCell
  | otherTag
deriving DecidableEq, Repr

inductive MdEventE where
  | start (tag : MdTag)
  | endTag (tag : MdTagEnd)
  | text (s : String)
  | code (s : String)
  | html (s : String)
  | inlineHtml (s : String)
  | footnoteReference (name : String)
  | softBreak
  | hardBreak
  | rule
  | taskListMarker (done : Bool)
  | otherEvent
deriving DecidableEq, Repr

structure ActiveLink where
  target : String
  text : String
deriving DecidableEq, Repr

structure ActiveImage where
  target : String
  alt : String
deriving DecidableEq, Repr

structure TableState where
  in_head : Bool := false
  in_row : Bool := false
  in_cell : Bool := false
  headers : List String := []
  rows : List (List String) := []
  current_row : List String := []
  current_cell : String := ""
  alignments : List TableAlignment := []
deriving DecidableEq, Repr

structure InlineState where
  emphasis : Nat := 0
  strong : Nat := 0
  strikethrough : Nat := 0
  link_depth : Nat := 0
deriving DecidableEq, Repr

structure ListEntry where
  ordered : Bool
  next_index : Nat
deriving DecidableEq, Repr

structure RendererState where
  lines : List RenderedLine := []
  toc : List TocEntry := []
  links : List LinkRef := []
  inline : InlineState := {}
  current_segments : List StyledSegment := []
  current_plain : String := ""
  current_line_link_indices : List Nat := []
  active_link : Option ActiveLink := none
  active_image : Option ActiveImage := none
  heading_level : Option Nat := none
  blockquote_depth : Nat := 0
  list_stack : List ListEntry := []
  code_block_lang : Option String := none
  code_block_buf : String := ""
  table : Option TableState := none
deriving Repr

/-- `InlineState::style`. -/
def inlineStyle (inl : InlineState) : TermStyle :=
  let style : TermStyle := {}
  let style := if inl.emphasis > 0 then { style with italic := true } else style
  let style := if inl.strong > 0 then { style with bold := true } else style
  let style := if inl.strikethrough > 0 then { style with crossedOut := true } else style
  if inl.link_depth > 0 then { style with fg := some TermColor.cyan, underlined := true }
  else style

def strRepeat (x : String) (n : Nat) : String := String.join (List.replicate n x)

/-- `str::trim`, written over the character list so that it evaluates in the
kernel (the inputs of interest are ASCII). -/
def isAsciiWhitespace (c : Char) : Bool := c = ' ' ∨ c = '\t' ∨ c = '\n' ∨ c = '\r'

def strTrim (s : String) : String :=
  String.mk (((s.data.dropWhile isAsciiWhitespace).reverse.dropWhile
    isAsciiWhitespace).reverse)

/-- `Renderer::push_text`. -/
def push_text (s : RendererState) (text : String) (style : TermStyle) : RendererState :=
  if text = "" then s
  else
    { s with
      current_plain := s.current_plain ++ text
      current_segments := s.current_segments ++ [⟨text, style⟩] }

/-- `Renderer::push_styled_plain_text`. -/
def push_styled_plain_text (s : RendererState) (text : String) : RendererState :=
  let style : TermStyle :=
    match s.heading_level with
    | some 1 => { fg := some TermColor.yellow, bold := true }
    | some 2 => { fg := some TermColor.lightMagenta, bold := true }
    | some _ => { fg := some TermColor.lightCyan, bold := true }
    | none => inlineStyle s.inline
  push_text s text style

/-- `Renderer::push_prefix_if_needed`. -/
def push_prefix_if_needed (s : RendererState) : RendererState :=
  if s.current_plain ≠ "" then s
  else if s.blockquote_depth > 0 then
    push_text s (strRepeat "> " s.blockquote_depth) { fg := some TermColor.darkGray }
  else s

/-- `self.links.get_mut(idx)` followed by the line-field write: out-of-range
indices are no-ops. -/
def setLinkLine (links : List LinkRef) (i line : Nat) : List LinkRef :=
  match links.get? i with
  | some l => links.set i { l with line := line }
  | none => links

/-- `Renderer::flush_line`. -/
def flush_line (s : RendererState) (force_empty : Bool) : RendererState :=
  if ¬force_empty ∧ s.current_segments = [] ∧ s.current_plain = "" then s
  else
    let line_index := s.lines.length
    let links :=
      s.current_line_link_indices.foldl (fun ls i => setLinkLine ls i line_index) s.links
    { s with
      links := links
      lines := s.lines ++ [⟨s.current_segments, s.current_plain⟩]
      current_segments := []
      current_plain := ""
      current_line_link_indices := [] }

/-- `Renderer::blank_line`. -/
def blank_line (s : RendererState) : RendererState :=
  if (match s.lines.getLast? with
      | some line => line.plain == ""
      | none => false) then s
  else flush_line s true

/-- The main `match` of `Renderer::handle_start` (reached when the table
interception does not return). -/
def handle_start_main (s : RendererState) (tag : MdTag) : RendererState :=
  match tag with
  | MdTag.heading level =>
    let s := flush_line s false
    { s with heading_level := some (headingLevelU8 level) }
  | MdTag.blockQuote =>
    let s := flush_line s false
    { s with blockquote_depth := s.blockquote_depth + 1 }
  | MdTag.codeBlock kind =>
    let s := flush_line s false
    let lang :=
      match kind with
      | CodeBlockKind.fenced name => name
      | CodeBlockKind.indented => ""
    { s with code_block_lang := some lang, code_block_buf := "" }
  | MdTag.list start =>
    let l :=
      match start with
      | some index => ListEntry.mk true index
      | none => ListEntry.mk false 1
    { s with list_stack := s.list_stack ++ [l] }
  | MdTag.item =>
    let s := flush_line s false
    let depth := s.list_stack.length - 1
    let indent := strRepeat "  " depth
    (match s.list_stack.getLast? with
     | some last =>
       if last.ordered then
         let bullet := toString last.next_index ++ ". "
         let s :=
           { s with
             list_stack := s.list_stack.dropLast ++ [{ last with next_index := last.next_index + 1 }] }
         push_text s (indent ++ bullet) { fg := some TermColor.darkGray }
       else push_text s (indent ++ "- ") { fg := some TermColor.darkGray }
     | none => push_text s (indent ++ "- ") { fg := some TermColor.darkGray })
  | MdTag.emphasis => { s with inline := { s.inline with emphasis := s.inline.emphasis + 1 } }
  | MdTag.strong => { s with inline := { s.inline with strong := s.inline.strong + 1 } }
  | MdTag.strikethrough =>
    { s with inline := { s.inline with strikethrough := s.inline.strikethrough + 1 } }
  | MdTag.link dest_url =>
    { s with
      inline := { s.inline with link_depth := s.inline.link_depth + 1 }
      active_link := some ⟨dest_url, ""⟩ }
  | MdTag.image dest_url => { s with active_image := some ⟨dest_url, ""⟩ }
  | MdTag.table alignments =>
    let s := flush_line s false
    { s with table := some { alignments := alignments } }
  | _ => s

/-- `Renderer::handle_start` (table interception first). -/
def handle_start (s : RendererState) (tag : MdTag) : RendererState :=
  match s.table, tag with
  | some t, MdTag.tableHead => { s with table := some { t with in_head := true } }
  | some t, MdTag.tableRow =>
    { s with table := some { t with in_row := true, current_row := [] } }
  | some t, MdTag.tableCell =>
    { s with table := some { t with in_cell := true, current_cell := "" } }
  | _, _ => handle_start_main s tag

/-- `syntect::util::LinesWithEndings`: split after each newline, keeping the
newline, with no empty trailing item. -/
def linesWithEndingsAux : List Char → List Char → List String
  | [], [] => []
  | [], acc => [String.mk acc.reverse]
  | c :: rest, acc =>
    if c = '\n' then String.mk (('\n' :: acc).reverse) :: linesWithEndingsAux rest []
    else linesWithEndingsAux rest (c :: acc)

def linesWithEndings (code : String) : List String := linesWithEndingsAux code.data []

/-- `strip_suffix('\n')` then `strip_suffix('\r')` on the result, written
over the character list so that it evaluates in the kernel. -/
def stripNewlineCR (line : String) : String :=
  let c1 := if line.data.getLast? = some '\n' then String.mk line.data.dropLast else line
  if c1.data.getLast? = some '\r' then String.mk c1.data.dropLast else c1

/-- `token.replace('\n', "")`. -/
def removeNewlines (token : String) : String :=
  String.mk (token.data.filter (fun c => c ≠ '\n'))

/-- `Renderer::render_code_block`, with syntect's per-line highlighting
abstracted as `hl lang line` (an erroring or empty highlighter yields `[]`,
which takes the plain light-green branch exactly as `unwrap_or_default` plus
the `is_empty` test do). -/
def render_code_block (s : RendererState) (hl : String → String → List (TermStyle × String))
    (lang code : String) : RendererState :=
  (linesWithEndings code).foldl
    (fun s line =>
      let clean := stripNewlineCR line
      let s := push_text s "  " { fg := some TermColor.darkGray }
      let highlighted_tokens := hl lang line
      let s :=
        if highlighted_tokens = [] then
          push_text s clean { fg := some TermColor.lightGreen }
        else
          highlighted_tokens.foldl (fun s p => push_text s (removeNewlines p.2) p.1) s
      flush_line s false)
    s

/-- `format!("{cell:<width$}")`: left-aligned pad with spaces to `width`
characters. -/
def padRightTo (cell : String) (width : Nat) : String :=
  cell ++ strRepeat " " (width - cell.length)

/-- `Renderer::format_table_row`. -/
def format_table_row (row : List String) (widths : List Nat) : String :=
  row.enum.foldl (fun out p => out ++ padRightTo p.2 (widths.getD p.1 0) ++ " | ") "| "

/-- `Renderer::render_table`. -/
def render_table (s : RendererState) (t : TableState) : RendererState :=
  let rows0 : List (List String) := (if t.headers ≠ [] then [t.headers] else []) ++ t.rows
  if rows0 = [] then s
  else
    let col_count := (rows0.map List.length).foldl max 0
    if col_count = 0 then s
    else
      let rows := rows0.map (fun row => row ++ List.replicate (col_count - row.length) "")
      let widths :=
        (List.range col_count).map (fun idx =>
          (rows.map (fun row => (row.getD idx "").length)).foldl max 3)
      match rows.head? with
      | none => s
      | some header =>
        let line := format_table_row header widths
        let s := push_text s line { fg := some TermColor.yellow }
        let s := flush_line s false
        let sep_cells :=
          (List.range col_count).map (fun idx =>
            let width := widths.getD idx 0
            match t.alignments.getD idx TableAlignment.noAlign with
            | TableAlignment.left => ":" ++ strRepeat "-" (width - 1)
            | TableAlignment.center =>
              if width ≤ 1 then ":" else ":" ++ strRepeat "-" (width - 2) ++ ":"
            | TableAlignment.right => strRepeat "-" (width - 1) ++ ":"
            | TableAlignment.noAlign => strRepeat "-" width)
        let sep_line := format_table_row sep_cells widths
        let s := push_text s sep_line { fg := some TermColor.darkGray }
        let s := flush_line s false
        (rows.drop 1).foldl
          (fun s row =>
            let s := push_text s (format_table_row row widths) {}
            flush_line s false)
          s

/-- The main `match` of `Renderer::handle_end` (reached when the table
interception does not return). -/
def handle_end_main (s : RendererState) (hl : String → String → List (TermStyle × String))
    (tag : MdTagEnd) : RendererState :=
  match tag with
  | MdTagEnd.paragraph =>
    let s := flush_line s false
    blank_line s
  | MdTagEnd.heading level =>
    let s := flush_line s false
    let line_idx := s.lines.length - 1
    let title := ((s.lines.get? line_idx).map (fun line => strTrim line.plain)).getD ""
    let level_u8 := headingLevelU8 level
    let s :=
      if level_u8 ≤ 3 ∧ title ≠ "" then
        { s with toc := s.toc ++ [⟨level_u8, title, line_idx⟩] }
      else s
    let s := { s with heading_level := none }
    blank_line s
  | MdTagEnd.blockQuote =>
    let s := flush_line s false
    let s := { s with blockquote_depth := s.blockquote_depth - 1 }
    blank_line s
  | MdTagEnd.codeBlock =>
    let lang := s.code_block_lang.getD ""
    let code := s.code_block_buf
    let s := { s with code_block_lang := none, code_block_buf := "" }
    let s := render_code_block s hl lang code
    blank_line s
  | MdTagEnd.list =>
    let s := flush_line s false
    let s := { s with list_stack := s.list_stack.dropLast }
    blank_line s
  | MdTagEnd.item => flush_line s false
  | MdTagEnd.emphasis =>
    { s with inline := { s.inline with emphasis := s.inline.emphasis - 1 } }
  | MdTagEnd.strong => { s with inline := { s.inline with strong := s.inline.strong - 1 } }
  | MdTagEnd.strikethrough =>
    { s with inline := { s.inline with strikethrough := s.inline.strikethrough - 1 } }
  | MdTagEnd.link =>
    let s := { s with inline := { s.inline with link_depth := s.inline.link_depth - 1 } }
    (match s.active_link with
     | some link =>
       let label := if strTrim link.text = "" then link.target else strTrim link.text
       let index := s.links.length
       { s with
         links := s.links ++ [⟨label, link.target, USIZE_MAX⟩]
         current_line_link_indices := s.current_line_link_indices ++ [index]
         active_link := none }
     | none => s)
  | MdTagEnd.image =>
    (match s.active_image with
     | some image =>
       let alt := if strTrim image.alt = "" then "image" else strTrim image.alt
       let placeholder := "[image: " ++ alt ++ "] (" ++ image.target ++ ")"
       let s := { s with active_image := none }
       push_text s placeholder { fg := some TermColor.lightBlue }
     | none => s)
  | _ => s

/-- `Renderer::handle_end` (table interception first). -/
def handle_end (s : RendererState) (hl : String → String → List (TermStyle × String))
    (tag : MdTagEnd) : RendererState :=
  match s.table, tag with
  | some t, MdTagEnd.tableCell =>
    if t.in_cell then
      { s with
        table := some
          { t with
            current_row := t.current_row ++ [strTrim t.current_cell]
            current_cell := ""
            in_cell := false } }
    else s
  | some t, MdTagEnd.tableRow =>
    if t.in_row then
      if t.in_head then
        { s with table := some { t with headers := t.current_row, current_row := [], in_row := false } }
      else
        { s with
          table := some
            { t with rows := t.rows ++ [t.current_row], current_row := [], in_row := false } }
    else s
  | some t, MdTagEnd.tableHead => { s with table := some { t with in_head := false } }
  | some t, MdTagEnd.table =>
    let s := { s with table := none }
    let s := render_table s t
    blank_line s
  | _, _ => handle_end_main s hl tag

/-- The non-code, non-table, non-image tail of `Renderer::add_text`. -/
def add_text_plain (s : RendererState) (text : String) : RendererState :=
  match s.active_image with
  | some image => { s with active_image := some { image with alt := image.alt ++ text } }
  | none =>
    let s := push_prefix_if_needed s
    let s := push_styled_plain_text s text
    (match s.active_link with
     | some link => { s with active_link := some { link with text := link.text ++ text } }
     | none => s)

/-- `Renderer::add_text`. -/
def add_text (s : RendererState) (text : String) : RendererState :=
  if s.code_block_lang.isSome then { s with code_block_buf := s.code_block_buf ++ text }
  else
    match s.table with
    | some t =>
      if t.in_cell then { s with table := some { t with current_cell := t.current_cell ++ text } }
      else add_text_plain s text
    | none => add_text_plain s text

/-- The non-code, non-table tail of `Renderer::soft_break`. -/
def soft_break_plain (s : RendererState) : RendererState :=
  let s := push_text s " " (inlineStyle s.inline)
  match s.active_link with
  | some link => { s with active_link := some { link with text := link.text ++ " " } }
  | none => s

/-- `Renderer::soft_break`. -/
def soft_break (s : RendererState) : RendererState :=
  if s.code_block_lang.isSome then { s with code_block_buf := s.code_block_buf ++ "\n" }
  else
    match s.table with
    | some t =>
      if t.in_cell then { s with table := some { t with current_cell := t.current_cell ++ " " } }
      else soft_break_plain s
    | none => soft_break_plain s

/-- `Renderer::hard_break`. -/
def hard_break (s : RendererState) : RendererState :=
  if s.code_block_lang.isSome then { s with code_block_buf := s.code_block_buf ++ "\n" }
  else flush_line s false

/-- The non-code, non-table tail of `Renderer::add_inline_code`. -/
def add_inline_code_plain (s : RendererState) (code : String) : RendererState :=
  let s := push_prefix_if_needed s
  let s := push_text s code { fg := some TermColor.lightYellow, bold := true }
  match s.active_link with
  | some link => { s with active_link := some { link with text := link.text ++ code } }
  | none => s

/-- `Renderer::add_inline_code`. -/
def add_inline_code (s : RendererState) (code : String) : RendererState :=
  if s.code_block_lang.isSome then { s with code_block_buf := s.code_block_buf ++ code }
  else
    match s.table with
    | some t =>
      if t.in_cell then { s with table := some { t with current_cell := t.current_cell ++ code } }
      else add_inline_code_plain s code
    | none => add_inline_code_plain s code

/-- `Renderer::add_rule`: the pushed text is the fixed 64-character bar. -/
def add_rule (s : RendererState) : RendererState :=
  let s := flush_line s false
  let s := push_text s (strRepeat "─" 64) { fg := some TermColor.darkGray }
  let s := flush_line s false
  blank_line s

/-- `Renderer::add_task_marker`. -/
def add_task_marker (s : RendererState) (done : Bool) : RendererState :=
  let s := push_prefix_if_needed s
  let marker := if done then "[x] " else "[ ] "
  push_text s marker { fg := some TermColor.darkGray }

/-- `Renderer::finish`. -/
def renderer_finish (s : RendererState) : RenderedDocument :=
  let s := flush_line s false
  let lines := if s.lines = [] then [({} : RenderedLine)] else s.lines
  ⟨lines, s.toc, s.links⟩

/-- The per-event dispatch of `render_markdown`. -/
def render_event (hl : String → String → List (TermStyle × String))
    (s : RendererState) (ev : MdEventE) : RendererState :=
  match ev with
  | MdEventE.start tag => handle_start s tag
  | MdEventE.endTag tag => handle_end s hl tag
  | MdEventE.text t => add_text s t
  | MdEventE.code c => add_inline_code s c
  | MdEventE.html h => add_text s h
  | MdEventE.inlineHtml h => add_text s h
  | MdEventE.footnoteReference name => add_text s ("[^" ++ name ++ "]")
  | MdEventE.softBreak => soft_break s
  | MdEventE.hardBreak => hard_break s
  | MdEventE.rule => add_rule s
  | MdEventE.taskListMarker done => add_task_marker s done
  | MdEventE.otherEvent => s

/-- `render_markdown` over the event stream the pull parser produces. -/
def render_markdown_events (hl : String → String → List (TermStyle × String))
    (events : List MdEventE) : RenderedDocument :=
  renderer_finish (events.foldl (render_event hl) {})

/-! ## Snapshot store and navigation state (src/main.rs, `App`) -/

structure WatchSnapshot where
  revision : Nat
  created_at : Nat
  created_instant : Nat
  rendered : RenderedDocument
  diff : SnapshotDiff
deriving DecidableEq, Repr

/-- The subset of `App` that the embedded operations read or write: the
rendered document, the snapshot ring, and the navigation scalars. -/
structure AppState where
  doc : RenderedDocument
  snapshots : List WatchSnapshot
  active_snapshot : Nat
  next_revision : Nat
  history_capacity : Nat
  scroll : Nat
  viewport_height : Nat
  toc_selected : Nat
  selected_link : Option Nat
  search_query : String
  search_matches : List Nat
  current_match : Nat
deriving DecidableEq, Repr

/-- `u8::to_ascii_lowercase` lifted to a character. -/
def asciiLowerChar (c : Char) : Char :=
  if 'A' ≤ c ∧ c ≤ 'Z' then Char.ofNat (c.toNat + 32) else c

/-- `str::to_ascii_lowercase`. -/
def toAsciiLower (s : String) : String := String.mk (s.data.map asciiLowerChar)

/-- `str::contains` on character lists. -/
def listContainsSub (hay needle : List Char) : Bool :=
  if needle.isPrefixOf hay then true
  else
    match hay with
    | [] => false
    | _ :: rest => listContainsSub rest needle

def strContains (hay needle : String) : Bool := listContainsSub hay.data needle.data

/-- `App::max_scroll`. -/
def max_scroll (a : AppState) : Nat :=
  usize_to_u16_saturating (a.doc.lines.length - max a.viewport_height 1)

/-- `App::sync_toc_selected_with_scroll`. -/
def sync_toc_selected_with_scroll (a : AppState) : AppState :=
  { a with
    toc_selected := (rposition (fun entry => entry.line ≤ a.scroll) a.doc.toc).getD 0 }

/-- `App::set_scroll_and_sync`. -/
def set_scroll_and_sync (a : AppState) (scroll : Nat) : AppState :=
  let a := { a with scroll := min scroll (max_scroll a) }
  sync_toc_selected_with_scroll a

/-- `App::set_scroll_to_line`. -/
def set_scroll_to_line (a : AppState) (line : Nat) : AppState :=
  set_scroll_and_sync a (usize_to_u16_saturating line)

/-- `App::clamp_scroll`. -/
def clamp_scroll (a : AppState) : AppState :=
  { a with scroll := min a.scroll (max_scroll a) }

/-- `App::update_search_matches`. -/
def update_search_matches (a : AppState) : AppState :=
  if a.search_query = "" then { a with search_matches := [], current_match := 0 }
  else
    let needle := toAsciiLower a.search_query
    let matchList :=
      a.doc.lines.enum.filterMap
        (fun p => if strContains (toAsciiLower p.2.plain) needle then some p.1 else none)
    let a := { a with search_matches := matchList }
    if matchList = [] then { a with current_match := 0 }
    else
      let a := { a with current_match := min a.current_match (matchList.length - 1) }
      set_scroll_to_line a (matchList.getD a.current_match 0)

/-- `App::sync_doc_with_active_snapshot`. -/
def sync_doc_with_active_snapshot (a : AppState) (old_scroll : Nat)
    (fallback_to_first_hunk : Bool) : AppState :=
  match a.snapshots.get? a.active_snapshot with
  | none => a
  | some snapshot =>
    let a :=
      { a with
        doc := snapshot.rendered
        selected_link := if snapshot.rendered.links = [] then none else some 0 }
    let a := update_search_matches a
    let a :=
      if a.search_query = "" ∨ a.search_matches = [] then
        if old_scroll ≤ max_scroll a then { a with scroll := old_scroll }
        else if fallback_to_first_hunk then
          match snapshot.diff.hunks.head? with
          | some hunk => set_scroll_to_line a (hunk_anchor_line hunk a.doc.lines.length)
          | none => { a with scroll := max_scroll a }
        else { a with scroll := max_scroll a }
      else a
    let a := clamp_scroll a
    sync_toc_selected_with_scroll a

/-- The `while self.snapshots.len() > self.history_capacity` eviction loop of
`App::push_watch_snapshot`, returning the surviving ring, the adjusted active
index, and the `selected_evicted` flag. -/
def evictLoop (cap : Nat) : List WatchSnapshot → Nat → Bool → List WatchSnapshot × Nat × Bool
  | [], active, selEv => ([], active, selEv)
  | x :: rest, active, selEv =>
    if (x :: rest).length > cap then
      if active > 0 then evictLoop cap rest (active - 1) selEv
      else evictLoop cap rest active true
    else (x :: rest, active, selEv)

/-- The diff `App::push_watch_snapshot` computes against the last stored
snapshot (`unwrap_or_default` when the ring is empty). -/
def last_diff (a : AppState) (rendered : RenderedDocument) : SnapshotDiff :=
  match a.snapshots.getLast? with
  | some previous => build_snapshot_diff previous.rendered rendered
  | none => default

/-- `App::push_watch_snapshot`, with the two clock reads passed in as the
`wall`/`inst` arguments. -/
def push_watch_snapshot (a : AppState) (rendered : RenderedDocument) (wall inst : Nat) :
    AppState × Bool :=
  let diff := last_diff a rendered
  if diff.hunks = [] ∧ diff.added = 0 ∧ diff.removed = 0 then (a, false)
  else
    let was_live := a.active_snapshot = a.snapshots.length - 1
    let old_scroll := a.scroll
    let revision := a.next_revision
    let a :=
      { a with
        next_revision := a.next_revision + 1
        snapshots := a.snapshots ++ [(⟨revision, wall, inst, rendered, diff⟩ : WatchSnapshot)] }
    let ev := evictLoop a.history_capacity a.snapshots a.active_snapshot false
    let a := { a with snapshots := ev.1, active_snapshot := ev.2.1 }
    if was_live then
      let a := { a with active_snapshot := a.snapshots.length - 1 }
      (sync_doc_with_active_snapshot a old_scroll true, true)
    else if ev.2.2 then (sync_doc_with_active_snapshot a old_scroll true, true)
    else (a, true)

/-- Lines 2049-2050 of `App::draw`: the viewport-height update followed by
`clamp_scroll`, parametrised by the computed content-area height. -/
def draw_viewport_clamp (a : AppState) (content_height : Nat) : AppState :=
  let a := { a with viewport_height := max (content_height - 1) 1 }
  clamp_scroll a

/-! ## Stated properties and concrete inputs -/

/-- Shape invariant of a produced hunk: the new-side extent is exactly the
added count, and the hunk is non-empty. -/
def hunkWF (h : DiffHunk) : Prop :=
  h.end_line = h.start_line + h.added ∧ 1 ≤ h.added + h.removed

/-- Relation between the closed hunks, the running `new_index` and the open
hunk of the op-walking loop. -/
def curOk (hs : List DiffHunk) (ni : Nat) : Option DiffHunk → Prop
  | some c => hunkWF c ∧ c.end_line = ni ∧ ∀ h ∈ hs, h.end_line < c.start_line
  | none => ∀ h ∈ hs, h.end_line < ni

def curAdded : Option DiffHunk → Nat
  | some c => c.added
  | none => 0

def curRemoved : Option DiffHunk → Nat
  | some c => c.removed
  | none => 0

/-- Invariant threaded through the op-walking loop of `compute_line_diff`. -/
def stateInv (st : DiffState) : Prop :=
  (∀ h ∈ st.hunks, hunkWF h) ∧
  st.hunks.Pairwise (fun a b => a.end_line < b.start_line) ∧
  curOk st.hunks st.newIndex st.current ∧
  st.added = (st.hunks.map DiffHunk.added).sum + curAdded st.current ∧
  st.removed = (st.hunks.map DiffHunk.removed).sum + curRemoved st.current

/-- The stripped middles of `compute_line_diff`, exposed for stating the
overflow contract. -/
def stripOldMid (old_lines new_lines : List String) : List String :=
  let pre := commonPrefixLen old_lines new_lines
  let oldRest := old_lines.drop pre
  let newRest := new_lines.drop pre
  let suf := commonPrefixLen oldRest.reverse newRest.reverse
  oldRest.take (oldRest.length - suf)

def stripNewMid (old_lines new_lines : List String) : List String :=
  let pre := commonPrefixLen old_lines new_lines
  let oldRest := old_lines.drop pre
  let newRest := new_lines.drop pre
  let suf := commonPrefixLen oldRest.reverse newRest.reverse
  newRest.take (newRest.length - suf)

/-- The spec's words for the TOC cursor invariant: `sel` is the largest index
of a TOC entry whose line is at or before `scroll`, or 0 when no entry
qualifies. -/
def isLargestTocAtOrBefore (toc : List TocEntry) (scroll sel : Nat) : Prop :=
  (sel = 0 ∧ ∀ j e, toc.get? j = some e → ¬ e.line ≤ scroll) ∨
  (∃ e, toc.get? sel = some e ∧ e.line ≤ scroll ∧
    ∀ j e', toc.get? j = some e' → e'.line ≤ scroll → j ≤ sel)

/-- Two 60-line sequences sharing no lines (scenario S4). -/
def oldSixtyLines : List String := (List.range 60).map (fun i => "a" ++ toString i)

def newSixtyLines : List String := (List.range 60).map (fun i => "b" ++ toString i)

/-- A highlighter producing no tokens (empty syntax table / plain text). -/
def emptyHl : String → String → List (TermStyle × String) := fun _ _ => []

/-- The event stream pulldown_cmark produces for the source
"x\n\n[](u)": a one-word paragraph followed by a paragraph holding only an
empty-labelled link. -/
def emptyLinkEvents : List MdEventE :=
  [MdEventE.start MdTag.paragraph,
   MdEventE.text "x",
   MdEventE.endTag MdTagEnd.paragraph,
   MdEventE.start MdTag.paragraph,
   MdEventE.start (MdTag.link "u"),
   MdEventE.endTag MdTagEnd.link,
   MdEventE.endTag MdTagEnd.paragraph]

/-- A minimal rendered document: one empty line. -/
def docOneLine : RenderedDocument := { lines := [{}] }

/-- A store state holding `docOneLine` as its only snapshot. -/
def appRefuse : AppState :=
  { doc := docOneLine
    snapshots := [⟨1, 0, 0, docOneLine, {}⟩]
    active_snapshot := 0
    next_revision := 2
    history_capacity := 50
    scroll := 0
    viewport_height := 1
    toc_selected := 0
    selected_link := none
    search_query := ""
    search_matches := []
    current_match := 0 }

/-- A changed document (one non-empty line) to append onto `appRefuse`. -/
def docChanged : RenderedDocument := { lines := [⟨[], "changed"⟩] }

/-- A 20-line document with TOC entries at lines 0 and 10. -/
def docTwenty : RenderedDocument :=
  { lines := List.replicate 20 {}
    toc := [⟨1, "A", 0⟩, ⟨2, "B", 10⟩] }

/-- Navigation state on `docTwenty` before any scrolling. -/
def appTwenty : AppState :=
  { doc := docTwenty
    snapshots := []
    active_snapshot := 0
    next_revision := 1
    history_capacity := 50
    scroll := 0
    viewport_height := 1
    toc_selected := 0
    selected_link := none
    search_query := ""
    search_matches := []
    current_match := 0 }

/-- Link-line sanity for renderer states: every recorded link points at an
already-flushed line or still carries the creation sentinel. -/
def linkLinesOk (s : RendererState) : Prop :=
  ∀ l ∈ s.links, l.line < s.lines.length ∨ l.line = USIZE_MAX

/-! ## Helper lemmas -/

theorem rposition_none_spec {α : Type} (p : α → Bool) (l : List α)
    (hn : rposition p l = none) : ∀ j e, l.get? j = some e → p e = false := by
  induction l with
  | nil => intro j e hj; simp at hj
  | cons x xs ih =>
    intro j e hj
    simp only [rposition] at hn
    cases hx : rposition p xs with
    | some i => rw [hx] at hn; simp at hn
    | none =>
      rw [hx] at hn
      by_cases hpx : p x
      · simp [hpx] at hn
      · cases j with
        | zero =>
          simp only [List.get?] at hj
          injection hj with hj
          subst hj
          simpa using hpx
        | succ j' => exact ih hx j' e (by simpa using hj)

theorem rposition_some_spec {α : Type} (p : α → Bool) (l : List α) (i : Nat)
    (hs : rposition p l = some i) :
    ∃ e, l.get? i = some e ∧ p e = true ∧
      ∀ j e', l.get? j = some e' → p e' = true → j ≤ i := by
  induction l generalizing i with
  | nil => simp [rposition] at hs
  | cons x xs ih =>
    simp only [rposition] at hs
    cases hx : rposition p xs with
    | some k =>
      rw [hx] at hs
      have hik : k + 1 = i := by simpa using hs
      subst hik
      obtain ⟨e, he, hpe, hmax⟩ := ih k hx
      refine ⟨e, by simpa using he, hpe, ?_⟩
      intro j e' hj hpe'
      cases j with
      | zero => omega
      | succ j' =>
        have := hmax j' e' (by simpa using hj) hpe'
        omega
    | none =>
      rw [hx] at hs
      by_cases hpx : p x
      · have hi : i = 0 := by simp [hpx] at hs; omega
        subst hi
        refine ⟨x, rfl, hpx, ?_⟩
        intro j e' hj hpe'
        cases j with
        | zero => omega
        | succ j' =>
          have := rposition_none_spec p xs hx j' e' (by simpa using hj)
          rw [hpe'] at this
          simp at this
      · simp [hpx] at hs

theorem rposition_largest_toc (toc : List TocEntry) (scroll : Nat) :
    isLargestTocAtOrBefore toc scroll
      ((rposition (fun entry => entry.line ≤ scroll) toc).getD 0) := by
  cases hx : rposition (fun entry => decide (entry.line ≤ scroll)) toc with
  | none =>
    left
    refine ⟨by simp, ?_⟩
    intro j e hj
    have := rposition_none_spec _ toc hx j e hj
    simpa using this
  | some i =>
    right
    obtain ⟨e, he, hpe, hmax⟩ := rposition_some_spec _ toc i hx
    refine ⟨e, ?_, by simpa using hpe, ?_⟩
    · simp only [Option.getD_some]
      exact he
    · intro j e' hj hpe'
      simp only [Option.getD_some]
      exact hmax j e' hj (by simpa using hpe')

theorem diffStep_equal_none (hs : List DiffHunk) (ni ad rm : Nat) :
    diffStep ⟨hs, none, ni, ad, rm⟩ DiffOp.equal = ⟨hs, none, ni + 1, ad, rm⟩ := by
  simp [diffStep]

theorem diffStep_equal_some (hs : List DiffHunk) (c : DiffHunk) (ni ad rm : Nat) :
    diffStep ⟨hs, some c, ni, ad, rm⟩ DiffOp.equal = ⟨hs ++ [c], none, ni + 1, ad, rm⟩ := by
  simp [diffStep]

theorem diffStep_add_none (hs : List DiffHunk) (ni ad rm : Nat) :
    diffStep ⟨hs, none, ni, ad, rm⟩ DiffOp.add =
      ⟨hs, some ⟨ni, ni + 1, 1, 0⟩, ni + 1, ad + 1, rm⟩ := by
  simp [diffStep]

theorem diffStep_add_some (hs : List DiffHunk) (c : DiffHunk) (ni ad rm : Nat) :
    diffStep ⟨hs, some c, ni, ad, rm⟩ DiffOp.add =
      ⟨hs, some ⟨c.start_line, ni + 1, c.added + 1, c.removed⟩, ni + 1, ad + 1, rm⟩ := by
  simp [diffStep]

theorem diffStep_remove_none (hs : List DiffHunk) (ni ad rm : Nat) :
    diffStep ⟨hs, none, ni, ad, rm⟩ DiffOp.remove =
      ⟨hs, some ⟨ni, ni, 0, 1⟩, ni, ad, rm + 1⟩ := by
  simp [diffStep]

theorem diffStep_remove_some (hs : List DiffHunk) (c : DiffHunk) (ni ad rm : Nat) :
    diffStep ⟨hs, some c, ni, ad, rm⟩ DiffOp.remove =
      ⟨hs, some ⟨c.start_line, c.end_line, c.added, c.removed + 1⟩, ni, ad, rm + 1⟩ := by
  simp [diffStep]

theorem stateInv_step (st : DiffState) (op : DiffOp) (h : stateInv st) :
    stateInv (diffStep st op) := by
  obtain ⟨hs, cur, ni, ad, rm⟩ := st
  obtain ⟨hwf, hpw, hcur, hadd, hrem⟩ := h
  dsimp only at hwf hpw hcur hadd hrem
  have hca0 : curAdded none = 0 := rfl
  have hcr0 : curRemoved none = 0 := rfl
  cases op with
  | equal =>
    cases cur with
    | none =>
      rw [diffStep_equal_none]
      have hc : ∀ h ∈ hs, h.end_line < ni := hcur
      exact ⟨hwf, hpw, fun h hm => Nat.lt_succ_of_lt (hc h hm), hadd, hrem⟩
    | some c =>
      rw [diffStep_equal_some]
      obtain ⟨hcwf, hce, hlt⟩ :=
        (hcur : hunkWF c ∧ c.end_line = ni ∧ ∀ h ∈ hs, h.end_line < c.start_line)
      have hcse : c.start_line ≤ c.end_line := by
        have h1 := hcwf.1; omega
      refine ⟨?_, ?_, ?_, ?_, ?_⟩
      · intro h hm
        rcases List.mem_append.mp hm with hm | hm
        · exact hwf h hm
        · simp at hm; subst hm; exact hcwf
      · refine List.pairwise_append.mpr ⟨hpw, List.pairwise_singleton _ _, ?_⟩
        intro a ha b hb
        simp at hb; subst hb
        exact hlt a ha
      · show ∀ h ∈ hs ++ [c], h.end_line < ni + 1
        intro h hm
        rcases List.mem_append.mp hm with hm | hm
        · have h1 := hlt h hm; omega
        · simp at hm; subst hm; omega
      · show ad = ((hs ++ [c]).map DiffHunk.added).sum + curAdded none
        rw [List.map_append, List.sum_append, hca0]
        have h1 : curAdded (some c) = c.added := rfl
        rw [h1] at hadd
        simp [hadd]
      · show rm = ((hs ++ [c]).map DiffHunk.removed).sum + curRemoved none
        rw [List.map_append, List.sum_append, hcr0]
        have h1 : curRemoved (some c) = c.removed := rfl
        rw [h1] at hrem
        simp [hrem]
  | add =>
    cases cur with
    | none =>
      rw [diffStep_add_none]
      have hc : ∀ h ∈ hs, h.end_line < ni := hcur
      refine ⟨hwf, hpw, ?_, ?_, ?_⟩
      · show hunkWF ⟨ni, ni + 1, 1, 0⟩ ∧ ni + 1 = ni + 1 ∧ ∀ h ∈ hs, h.end_line < ni
        exact ⟨⟨rfl, by dsimp only; omega⟩, rfl, hc⟩
      · show ad + 1 = (hs.map DiffHunk.added).sum + curAdded (some ⟨ni, ni + 1, 1, 0⟩)
        have h1 : curAdded (some (⟨ni, ni + 1, 1, 0⟩ : DiffHunk)) = 1 := rfl
        rw [h1, hca0] at *
        omega
      · show rm = (hs.map DiffHunk.removed).sum + curRemoved (some ⟨ni, ni + 1, 1, 0⟩)
        have h1 : curRemoved (some (⟨ni, ni + 1, 1, 0⟩ : DiffHunk)) = 0 := rfl
        rw [h1, hcr0] at *
        omega
    | some c =>
      rw [diffStep_add_some]
      obtain ⟨hcwf, hce, hlt⟩ :=
        (hcur : hunkWF c ∧ c.end_line = ni ∧ ∀ h ∈ hs, h.end_line < c.start_line)
      obtain ⟨hc1, hc2⟩ := hcwf
      refine ⟨hwf, hpw, ?_, ?_, ?_⟩
      · show hunkWF ⟨c.start_line, ni + 1, c.added + 1, c.removed⟩ ∧ ni + 1 = ni + 1 ∧
          ∀ h ∈ hs, h.end_line < c.start_line
        refine ⟨⟨?_, ?_⟩, rfl, hlt⟩
        · show ni + 1 = c.start_line + (c.added + 1)
          omega
        · show 1 ≤ c.added + 1 + c.removed
          omega
      · show ad + 1 = (hs.map DiffHunk.added).sum +
          curAdded (some ⟨c.start_line, ni + 1, c.added + 1, c.removed⟩)
        have h1 : curAdded (some (⟨c.start_line, ni + 1, c.added + 1, c.removed⟩ : DiffHunk)) =
          c.added + 1 := rfl
        have h2 : curAdded (some c) = c.added := rfl
        rw [h1]
        rw [h2] at hadd
        omega
      · show rm = (hs.map DiffHunk.removed).sum +
          curRemoved (some ⟨c.start_line, ni + 1, c.added + 1, c.removed⟩)
        have h1 : curRemoved (some (⟨c.start_line, ni + 1, c.added + 1, c.removed⟩ : DiffHunk)) =
          c.removed := rfl
        have h2 : curRemoved (some c) = c.removed := rfl
        rw [h1]
        rw [h2] at hrem
        omega
  | remove =>
    cases cur with
    | none =>
      rw [diffStep_remove_none]
      have hc : ∀ h ∈ hs, h.end_line < ni := hcur
      refine ⟨hwf, hpw, ?_, ?_, ?_⟩
      · show hunkWF ⟨ni, ni, 0, 1⟩ ∧ ni = ni ∧ ∀ h ∈ hs, h.end_line < ni
        exact ⟨⟨rfl, by dsimp only; omega⟩, rfl, hc⟩
      · show ad = (hs.map DiffHunk.added).sum + curAdded (some ⟨ni, ni, 0, 1⟩)
        have h1 : curAdded (some (⟨ni, ni, 0, 1⟩ : DiffHunk)) = 0 := rfl
        rw [h1, hca0] at *
        omega
      · show rm + 1 = (hs.map DiffHunk.removed).sum + curRemoved (some ⟨ni, ni, 0, 1⟩)
        have h1 : curRemoved (some (⟨ni, ni, 0, 1⟩ : DiffHunk)) = 1 := rfl
        rw [h1, hcr0] at *
        omega
    | some c =>
      rw [diffStep_remove_some]
      obtain ⟨hcwf, hce, hlt⟩ :=
        (hcur : hunkWF c ∧ c.end_line = ni ∧ ∀ h ∈ hs, h.end_line < c.start_line)
      obtain ⟨hc1, hc2⟩ := hcwf
      refine ⟨hwf, hpw, ?_, ?_, ?_⟩
      · show hunkWF ⟨c.start_line, c.end_line, c.added, c.removed + 1⟩ ∧ c.end_line = ni ∧
          ∀ h ∈ hs, h.end_line < c.start_line
        refine ⟨⟨?_, ?_⟩, hce, hlt⟩
        · show c.end_line = c.start_line + c.added
          omega
        · show 1 ≤ c.added + (c.removed + 1)
          omega
      · show ad = (hs.map DiffHunk.added).sum +
          curAdded (some ⟨c.start_line, c.end_line, c.added, c.removed + 1⟩)
        have h1 : curAdded (some (⟨c.start_line, c.end_line, c.added, c.removed + 1⟩ : DiffHunk)) =
          c.added := rfl
        have h2 : curAdded (some c) = c.added := rfl
        rw [h1]
        rw [h2] at hadd
        omega
      · show rm + 1 = (hs.map DiffHunk.removed).sum +
          curRemoved (some ⟨c.start_line, c.end_line, c.added, c.removed + 1⟩)
        have h1 : curRemoved
          (some (⟨c.start_line, c.end_line, c.added, c.removed + 1⟩ : DiffHunk)) =
          c.removed + 1 := rfl
        have h2 : curRemoved (some c) = c.removed := rfl
        rw [h1]
        rw [h2] at hrem
        omega

theorem stateInv_foldl (ops : List DiffOp) (st : DiffState) (h : stateInv st) :
    stateInv (ops.foldl diffStep st) := by
  induction ops generalizing st with
  | nil => exact h
  | cons op ops ih => exact ih _ (stateInv_step st op h)

theorem stateInv_init (pre : Nat) : stateInv ⟨[], none, pre, 0, 0⟩ := by
  refine ⟨?_, ?_, ?_, ?_, ?_⟩ <;> simp [curOk, curAdded, curRemoved]

theorem final_hunks_wf (st : DiffState) (h : stateInv st) :
    ∀ x ∈ st.hunks ++ st.current.toList, hunkWF x := by
  obtain ⟨hs, cur, ni, ad, rm⟩ := st
  obtain ⟨hwf, hpw, hcur, hadd, hrem⟩ := h
  dsimp only at hwf hpw hcur hadd hrem ⊢
  intro x hx
  rcases List.mem_append.mp hx with hx | hx
  · exact hwf x hx
  · cases cur with
    | none => simp at hx
    | some c =>
      simp at hx
      subst hx
      exact (hcur : hunkWF x ∧ x.end_line = ni ∧ ∀ h ∈ hs, h.end_line < x.start_line).1

theorem final_hunks_pairwise (st : DiffState) (h : stateInv st) :
    (st.hunks ++ st.current.toList).Pairwise (fun a b => a.end_line < b.start_line) := by
  obtain ⟨hs, cur, ni, ad, rm⟩ := st
  obtain ⟨hwf, hpw, hcur, hadd, hrem⟩ := h
  dsimp only at hwf hpw hcur hadd hrem ⊢
  cases cur with
  | none => simpa using hpw
  | some c =>
    obtain ⟨hcwf, hce, hlt⟩ :=
      (hcur : hunkWF c ∧ c.end_line = ni ∧ ∀ x ∈ hs, x.end_line < c.start_line)
    refine List.pairwise_append.mpr ⟨hpw, ?_, ?_⟩
    · simp
    · intro a ha b hb
      simp at hb
      subst hb
      exact hlt a ha

theorem final_hunks_added (st : DiffState) (h : stateInv st) :
    ((st.hunks ++ st.current.toList).map DiffHunk.added).sum = st.added := by
  obtain ⟨hs, cur, ni, ad, rm⟩ := st
  obtain ⟨hwf, hpw, hcur, hadd, hrem⟩ := h
  dsimp only at hwf hpw hcur hadd hrem ⊢
  cases cur with
  | none =>
    have h0 : curAdded none = 0 := rfl
    rw [h0] at hadd
    simp [hadd]
  | some c =>
    have h1 : curAdded (some c) = c.added := rfl
    rw [h1] at hadd
    simp [hadd]

theorem final_hunks_removed (st : DiffState) (h : stateInv st) :
    ((st.hunks ++ st.current.toList).map DiffHunk.removed).sum = st.removed := by
  obtain ⟨hs, cur, ni, ad, rm⟩ := st
  obtain ⟨hwf, hpw, hcur, hadd, hrem⟩ := h
  dsimp only at hwf hpw hcur hadd hrem ⊢
  cases cur with
  | none =>
    have h0 : curRemoved none = 0 := rfl
    rw [h0] at hrem
    simp [hrem]
  | some c =>
    have h1 : curRemoved (some c) = c.removed := rfl
    rw [h1] at hrem
    simp [hrem]

theorem diffCore_hunks_wf (pre : Nat) (om nm : List String) (mc : Nat) :
    ∀ h ∈ (diffCore pre om nm mc).hunks, hunkWF h := by
  unfold diffCore
  split_ifs with h1 h2 h3 h4
  · simp
  · have hnm : nm ≠ [] := fun hn => h1 ⟨h2, hn⟩
    have hlen : 0 < nm.length := List.length_pos.mpr hnm
    intro h hm
    dsimp only at hm
    simp only [List.mem_singleton] at hm
    subst hm
    exact ⟨rfl, by dsimp only; omega⟩
  · have hlen : 0 < om.length := List.length_pos.mpr h2
    intro h hm
    dsimp only at hm
    simp only [List.mem_singleton] at hm
    subst hm
    exact ⟨by dsimp only; omega, by dsimp only; omega⟩
  · have hnm : nm ≠ [] := h3
    have hlen : 0 < nm.length := List.length_pos.mpr hnm
    intro h hm
    dsimp only at hm
    simp only [List.mem_singleton] at hm
    subst hm
    exact ⟨rfl, by dsimp only; omega⟩
  · dsimp only
    intro h hm
    exact final_hunks_wf _ (stateInv_foldl _ _ (stateInv_init pre)) h hm

theorem diffCore_hunks_pairwise (pre : Nat) (om nm : List String) (mc : Nat) :
    (diffCore pre om nm mc).hunks.Pairwise (fun a b => a.end_line < b.start_line) := by
  unfold diffCore
  split_ifs with h1 h2 h3 h4
  · simp
  · dsimp only; simp
  · dsimp only; simp
  · dsimp only; simp
  · dsimp only
    exact final_hunks_pairwise _ (stateInv_foldl _ _ (stateInv_init pre))

theorem diffCore_added_sum (pre : Nat) (om nm : List String) (mc : Nat) :
    ((diffCore pre om nm mc).hunks.map DiffHunk.added).sum = (diffCore pre om nm mc).added := by
  unfold diffCore
  split_ifs with h1 h2 h3 h4
  · simp
  · dsimp only; simp
  · dsimp only; simp
  · dsimp only; simp
  · dsimp only
    exact final_hunks_added _ (stateInv_foldl _ _ (stateInv_init pre))

theorem diffCore_removed_sum (pre : Nat) (om nm : List String) (mc : Nat) :
    ((diffCore pre om nm mc).hunks.map DiffHunk.removed).sum =
      (diffCore pre om nm mc).removed := by
  unfold diffCore
  split_ifs with h1 h2 h3 h4
  · simp
  · dsimp only; simp
  · dsimp only; simp
  · dsimp only; simp
  · dsimp only
    exact final_hunks_removed _ (stateInv_foldl _ _ (stateInv_init pre))

theorem compute_line_diff_eq_core (old_lines new_lines : List String) (mc : Nat) :
    compute_line_diff old_lines new_lines mc =
      diffCore (commonPrefixLen old_lines new_lines)
        (stripOldMid old_lines new_lines) (stripNewMid old_lines new_lines) mc := rfl

theorem commonPrefixLen_self (l : List String) : commonPrefixLen l l = l.length := by
  induction l with
  | nil => rfl
  | cons x xs ih => simp [commonPrefixLen, ih]

theorem compute_line_diff_self (l : List String) (mc : Nat) :
    compute_line_diff l l mc = ⟨0, 0, [], false⟩ := by
  rw [compute_line_diff_eq_core]
  have h1 : stripOldMid l l = [] := by
    unfold stripOldMid
    simp [commonPrefixLen_self]
  have h2 : stripNewMid l l = [] := by
    unfold stripNewMid
    simp [commonPrefixLen_self]
  rw [h1, h2]
  unfold diffCore
  simp

theorem diffCore_overflow (pre : Nat) (om nm : List String) (mc : Nat)
    (hom : om ≠ []) (hnm : nm ≠ [])
    (hc : (om.length + 1) * (nm.length + 1) > mc) :
    diffCore pre om nm mc =
      ⟨nm.length, om.length, [⟨pre, pre + nm.length, nm.length, om.length⟩], true⟩ := by
  unfold diffCore
  rw [if_neg (fun hb => hom hb.1), if_neg hom, if_neg hnm, if_pos hc]

theorem compute_line_diff_hunks_wf (old_lines new_lines : List String) (mc : Nat) :
    ∀ h ∈ (compute_line_diff old_lines new_lines mc).hunks, hunkWF h := by
  rw [compute_line_diff_eq_core]
  exact diffCore_hunks_wf _ _ _ _

theorem compute_line_diff_hunks_pairwise (old_lines new_lines : List String) (mc : Nat) :
    (compute_line_diff old_lines new_lines mc).hunks.Pairwise
      (fun a b => a.end_line < b.start_line) := by
  rw [compute_line_diff_eq_core]
  exact diffCore_hunks_pairwise _ _ _ _

/-! ## Claim theorems -/

/-- C1: for any two rendered documents with identical plain-line sequences (in
particular `build_snapshot_diff(d, d)`), the snapshot diff is empty: added = 0,
removed = 0, and the hunk list is empty. -/
theorem c1_snapshot_diff_empty_on_equal_lines (prev next : RenderedDocument)
    (h : prev.lines.map (fun line => line.plain) = next.lines.map (fun line => line.plain)) :
    (build_snapshot_diff prev next).added = 0 ∧
      (build_snapshot_diff prev next).removed = 0 ∧
      (build_snapshot_diff prev next).hunks = [] := by
  have hld : compute_line_diff (prev.lines.map (fun line => line.plain))
      (next.lines.map (fun line => line.plain)) DIFF_MAX_CELLS = ⟨0, 0, [], false⟩ := by
    rw [h]; exact compute_line_diff_self _ _
  simp only [build_snapshot_diff]
  rw [hld]
  simp

/-- Witness for C1 at a concrete document: diffing `docOneLine` against itself
is empty. -/
theorem c1_witness :
    (build_snapshot_diff docOneLine docOneLine).added = 0 ∧
      (build_snapshot_diff docOneLine docOneLine).removed = 0 ∧
      (build_snapshot_diff docOneLine docOneLine).hunks = [] :=
  c1_snapshot_diff_empty_on_equal_lines docOneLine docOneLine rfl

/-- C2: when both stripped middles are non-empty and
`(len(old_mid)+1)*(len(new_mid)+1) > max_cells`, `compute_line_diff` reports
overflow with exactly one hunk spanning the whole stripped region, with
added = len(new_mid) and removed = len(old_mid). -/
theorem c2_overflow_single_hunk (old_lines new_lines : List String) (mc : Nat)
    (hom : stripOldMid old_lines new_lines ≠ [])
    (hnm : stripNewMid old_lines new_lines ≠ [])
    (hc : ((stripOldMid old_lines new_lines).length + 1) *
      ((stripNewMid old_lines new_lines).length + 1) > mc) :
    compute_line_diff old_lines new_lines mc =
      ⟨(stripNewMid old_lines new_lines).length, (stripOldMid old_lines new_lines).length,
        [⟨commonPrefixLen old_lines new_lines,
          commonPrefixLen old_lines new_lines + (stripNewMid old_lines new_lines).length,
          (stripNewMid old_lines new_lines).length,
          (stripOldMid old_lines new_lines).length⟩], true⟩ := by
  rw [compute_line_diff_eq_core]
  exact diffCore_overflow _ _ _ _ hom hnm hc

/-- Witness for C2 at scenario S4: two 60-line sequences sharing no lines under
`max_cells = 100` give overflow, one whole-region hunk, added = removed = 60. -/
theorem c2_witness :
    compute_line_diff oldSixtyLines newSixtyLines 100 = ⟨60, 60, [⟨0, 60, 60, 60⟩], true⟩ := by
  have h := c2_overflow_single_hunk oldSixtyLines newSixtyLines 100
    (by decide) (by decide) (by decide)
  exact h.trans (by decide)

/-- C3: for every pair of line sequences and every `max_cells`, the returned
hunks are disjoint in the new document's line space (each hunk ends strictly
before the next begins) and sorted in strictly increasing `start_line` order. -/
theorem c3_hunks_disjoint_sorted (old_lines new_lines : List String) (mc : Nat) :
    (compute_line_diff old_lines new_lines mc).hunks.Pairwise
      (fun a b => a.end_line < b.start_line) ∧
    (compute_line_diff old_lines new_lines mc).hunks.Pairwise
      (fun a b => a.start_line < b.start_line) := by
  have hpw := compute_line_diff_hunks_pairwise old_lines new_lines mc
  refine ⟨hpw, ?_⟩
  have hwf := compute_line_diff_hunks_wf old_lines new_lines mc
  refine List.Pairwise.imp_of_mem ?_ hpw
  intro a b ha hb hab
  have h1 := (hwf a ha).1
  omega

/-- C4: whenever `compute_line_diff` reports `overflow = false`, the per-hunk
added counts sum to the total added count, and likewise for removed. -/
theorem c4_hunk_sums (old_lines new_lines : List String) (mc : Nat)
    (hov : (compute_line_diff old_lines new_lines mc).overflow = false) :
    ((compute_line_diff old_lines new_lines mc).hunks.map DiffHunk.added).sum =
      (compute_line_diff old_lines new_lines mc).added ∧
    ((compute_line_diff old_lines new_lines mc).hunks.map DiffHunk.removed).sum =
      (compute_line_diff old_lines new_lines mc).removed := by
  constructor
  · rw [compute_line_diff_eq_core]
    exact diffCore_added_sum _ _ _ _
  · rw [compute_line_diff_eq_core]
    exact diffCore_removed_sum _ _ _ _

/-- Witness for C4 at scenario S2 (a one-line replacement). -/
theorem c4_witness :
    ((compute_line_diff ["a", "b", "c"] ["a", "z", "c"] 2000000).hunks.map
      DiffHunk.added).sum = (compute_line_diff ["a", "b", "c"] ["a", "z", "c"] 2000000).added ∧
    ((compute_line_diff ["a", "b", "c"] ["a", "z", "c"] 2000000).hunks.map
      DiffHunk.removed).sum =
      (compute_line_diff ["a", "b", "c"] ["a", "z", "c"] 2000000).removed :=
  c4_hunk_sums ["a", "b", "c"] ["a", "z", "c"] 2000000 (by decide)

/-- C5: scenario S3 concretely (old `["a","b","c"]`, new `["a","c"]` gives
added = 0, removed = 1 and the single hunk (start = 1, end = 1)), and in
general every pure-deletion hunk (added = 0) has `end_line = start_line`. -/
theorem c5_pure_deletion :
    compute_line_diff ["a", "b", "c"] ["a", "c"] 2000000 = ⟨0, 1, [⟨1, 1, 0, 1⟩], false⟩ ∧
    ∀ (old_lines new_lines : List String) (mc : Nat) (h : DiffHunk),
      h ∈ (compute_line_diff old_lines new_lines mc).hunks → h.added = 0 →
        h.end_line = h.start_line := by
  constructor
  · decide
  · intro old_lines new_lines mc h hm hadd
    have hwf := compute_line_diff_hunks_wf old_lines new_lines mc h hm
    have h1 := hwf.1
    omega

/-- Witness for C5: the deletion hunk of scenario S3 has `end_line =
start_line`. -/
theorem c5_witness :
    (⟨1, 1, 0, 1⟩ : DiffHunk).end_line = (⟨1, 1, 0, 1⟩ : DiffHunk).start_line :=
  c5_pure_deletion.2 ["a", "b", "c"] ["a", "c"] 2000000 ⟨1, 1, 0, 1⟩ (by decide) rfl

/-- C10: every hunk `compute_line_diff` returns satisfies `end_line =
start_line + added`, and no returned hunk is empty (`added + removed ≥ 1`). -/
theorem c10_hunk_shape (old_lines new_lines : List String) (mc : Nat) (h : DiffHunk)
    (hm : h ∈ (compute_line_diff old_lines new_lines mc).hunks) :
    h.end_line = h.start_line + h.added ∧ 1 ≤ h.added + h.removed :=
  compute_line_diff_hunks_wf old_lines new_lines mc h hm

/-- Witness for C10 at scenario S2's replacement hunk. -/
theorem c10_witness :
    (⟨1, 2, 1, 1⟩ : DiffHunk).end_line = (⟨1, 2, 1, 1⟩ : DiffHunk).start_line +
      (⟨1, 2, 1, 1⟩ : DiffHunk).added ∧
    1 ≤ (⟨1, 2, 1, 1⟩ : DiffHunk).added + (⟨1, 2, 1, 1⟩ : DiffHunk).removed :=
  c10_hunk_shape ["a", "b", "c"] ["a", "z", "c"] 2000000 ⟨1, 2, 1, 1⟩ (by decide)

theorem strAppendEmpty (s : String) : s ++ "" = s := by
  cases s
  simp [String.ext_iff]

theorem strEmptyAppend (s : String) : "" ++ s = s := by
  cases s
  simp [String.ext_iff]

theorem strAppendAssoc (a b c : String) : a ++ b ++ c = a ++ (b ++ c) := by
  cases a; cases b; cases c
  simp [String.ext_iff]

theorem plain_render_aux (n : Nat) (rest : List RenderedLine) :
    ∀ (k : Nat) (out : String), k + rest.length = n →
    (List.enumFrom k rest).foldl
      (fun out p =>
        let out := out ++ p.2.plain
        if p.1 + 1 < n then out ++ "\n" else out) out =
      out ++ joinPlainSpec (rest.map (fun line => line.plain)) := by
  induction rest with
  | nil => intro k out h; simp [joinPlainSpec, strAppendEmpty]
  | cons x rest ih =>
    intro k out h
    rw [List.enumFrom_cons, List.foldl_cons]
    cases rest with
    | nil =>
      have hk : ¬ (k + 1 < n) := by simp at h; omega
      simp only [hk, if_neg, ite_false]
      simp [joinPlainSpec]
    | cons y r =>
      have hk : k + 1 < n := by simp at h; omega
      simp only [hk, ite_true]
      have ih2 := ih (k + 1) (out ++ x.plain ++ "\n") (by simp at h ⊢; omega)
      rw [ih2]
      simp only [List.map_cons, joinPlainSpec]
      rw [strAppendAssoc (out ++ x.plain) "\n", strAppendAssoc out x.plain,
        strAppendAssoc x.plain "\n"]

/-- C9: for every rendered document, `plain_render` is the lines' plain texts
joined by single newline separators, with no trailing newline. -/
theorem c9_plain_render_join (doc : RenderedDocument) :
    plain_render doc = joinPlainSpec (doc.lines.map (fun line => line.plain)) := by
  unfold plain_render
  have h := plain_render_aux doc.lines.length doc.lines 0 "" (by omega)
  rw [List.enum]
  rw [h, strEmptyAppend]

theorem setLinkLine_mem (ls : List LinkRef) (i line : Nat) (l : LinkRef)
    (hl : l ∈ setLinkLine ls i line) : l ∈ ls ∨ l.line = line := by
  unfold setLinkLine at hl
  cases hg : ls.get? i with
  | none => rw [hg] at hl; left; exact hl
  | some x =>
    rw [hg] at hl
    rcases List.mem_or_eq_of_mem_set hl with h | h
    · left; exact h
    · right; rw [h]

theorem foldl_setLinkLine_mem (idxs : List Nat) (ls : List LinkRef) (line : Nat) (l : LinkRef)
    (hl : l ∈ idxs.foldl (fun ls i => setLinkLine ls i line) ls) : l ∈ ls ∨ l.line = line := by
  induction idxs generalizing ls with
  | nil => left; exact hl
  | cons i idxs ih =>
    rw [List.foldl_cons] at hl
    rcases ih (setLinkLine ls i line) hl with h | h
    · exact setLinkLine_mem ls i line l h
    · right; exact h

theorem ok_push_text (s : RendererState) (t : String) (style : TermStyle)
    (h : linkLinesOk s) : linkLinesOk (push_text s t style) := by
  unfold push_text
  split_ifs <;> exact h

theorem ok_push_styled (s : RendererState) (t : String) (h : linkLinesOk s) :
    linkLinesOk (push_styled_plain_text s t) :=
  ok_push_text _ _ _ h

theorem ok_push_prefix_if_needed (s : RendererState) (h : linkLinesOk s) :
    linkLinesOk (push_prefix_if_needed s) := by
  unfold push_prefix_if_needed
  split_ifs
  · exact h
  · exact ok_push_text _ _ _ h
  · exact h

theorem ok_flush (s : RendererState) (force : Bool) (h : linkLinesOk s) :
    linkLinesOk (flush_line s force) := by
  unfold flush_line
  split_ifs with hc
  · exact h
  · intro l hl
    dsimp only at hl ⊢
    rcases foldl_setLinkLine_mem _ _ _ l hl with hm | hm
    · rcases h l hm with h1 | h1
      · left; simp; omega
      · right; exact h1
    · left; simp; omega

theorem ok_blank (s : RendererState) (h : linkLinesOk s) : linkLinesOk (blank_line s) := by
  unfold blank_line
  split_ifs
  · exact h
  · exact ok_flush _ _ h

theorem ok_foldl_push_tokens (ps : List (TermStyle × String)) (s : RendererState)
    (h : linkLinesOk s) :
    linkLinesOk (ps.foldl (fun s p => push_text s (removeNewlines p.2) p.1) s) := by
  induction ps generalizing s with
  | nil => exact h
  | cons p ps ih =>
    rw [List.foldl_cons]
    exact ih _ (ok_push_text _ _ _ h)

theorem ok_code_block (s : RendererState) (hl : String → String → List (TermStyle × String))
    (lang code : String) (h : linkLinesOk s) : linkLinesOk (render_code_block s hl lang code) := by
  unfold render_code_block
  generalize linesWithEndings code = ls
  induction ls generalizing s with
  | nil => exact h
  | cons line rest ih =>
    rw [List.foldl_cons]
    apply ih
    dsimp only
    split_ifs with htok
    · exact ok_flush _ _ (ok_push_text _ _ _ (ok_push_text _ _ _ h))
    · exact ok_flush _ _ (ok_foldl_push_tokens _ _ (ok_push_text _ _ _ h))

theorem ok_foldl_table_rows (rows : List (List String)) (widths : List Nat)
    (s : RendererState) (h : linkLinesOk s) :
    linkLinesOk (rows.foldl
      (fun s row => flush_line (push_text s (format_table_row row widths) {}) false) s) := by
  induction rows generalizing s with
  | nil => exact h
  | cons row rows ih =>
    rw [List.foldl_cons]
    exact ih _ (ok_flush _ _ (ok_push_text _ _ _ h))

theorem ok_render_table (s : RendererState) (t : TableState) (h : linkLinesOk s) :
    linkLinesOk (render_table s t) := by
  unfold render_table
  dsimp only
  split_ifs with h1 h2 h3 <;>
    first
    | exact h
    | (split
       · exact h
       · apply ok_foldl_table_rows
         exact ok_flush _ _ (ok_push_text _ _ _ (ok_flush _ _ (ok_push_text _ _ _ h))))

theorem ok_start_main (s : RendererState) (tag : MdTag) (h : linkLinesOk s) :
    linkLinesOk (handle_start_main s tag) := by
  cases tag with
  | heading level => exact ok_flush _ _ h
  | blockQuote => exact ok_flush _ _ h
  | codeBlock kind => exact ok_flush _ _ h
  | list start => exact h
  | item =>
    unfold handle_start_main
    dsimp only
    split
    · split_ifs
      · exact ok_push_text _ _ _ (ok_flush _ _ h)
      · exact ok_push_text _ _ _ (ok_flush _ _ h)
    · exact ok_push_text _ _ _ (ok_flush _ _ h)
  | emphasis => exact h
  | strong => exact h
  | strikethrough => exact h
  | link dest_url => exact h
  | image dest_url => exact h
  | table alignments => exact ok_flush _ _ h
  | paragraph => exact h
  | tableHead => exact h
  | tableRow => exact h
  | tableCell => exact h
  | otherTag => exact h

theorem ok_start (s : RendererState) (tag : MdTag) (h : linkLinesOk s) :
    linkLinesOk (handle_start s tag) := by
  unfold handle_start
  split
  · exact h
  · exact h
  · exact h
  · exact ok_start_main _ _ h

theorem ok_end_main (s : RendererState) (hl : String → String → List (TermStyle × String))
    (tag : MdTagEnd) (h : linkLinesOk s) : linkLinesOk (handle_end_main s hl tag) := by
  cases tag with
  | paragraph => exact ok_blank _ (ok_flush _ _ h)
  | heading level =>
    unfold handle_end_main
    dsimp only
    split_ifs with hcond
    · exact ok_blank _ (ok_flush _ _ h)
    · exact ok_blank _ (ok_flush _ _ h)
  | blockQuote => exact ok_blank _ (ok_flush _ _ h)
  | codeBlock => exact ok_blank _ (ok_code_block _ _ _ _ h)
  | list => exact ok_blank _ (ok_flush _ _ h)
  | item => exact ok_flush _ _ h
  | emphasis => exact h
  | strong => exact h
  | strikethrough => exact h
  | link =>
    unfold handle_end_main
    dsimp only
    split
    · intro l hlm
      dsimp only at hlm ⊢
      rcases List.mem_append.mp hlm with hm | hm
      · exact h l hm
      · simp at hm
        subst hm
        right
        rfl
    · exact h
  | image =>
    unfold handle_end_main
    dsimp only
    split
    · exact ok_push_text _ _ _ h
    · exact h
  | table => exact h
  | tableHead => exact h
  | tableRow => exact h
  | tableCell => exact h
  | otherTag => exact h

theorem ok_end (s : RendererState) (hl : String → String → List (TermStyle × String))
    (tag : MdTagEnd) (h : linkLinesOk s) : linkLinesOk (handle_end s hl tag) := by
  unfold handle_end
  split
  · split_ifs
    · exact h
    · exact h
  · split_ifs
    · exact h
    · exact h
    · exact h
  · exact h
  · exact ok_blank _ (ok_render_table _ _ h)
  · exact ok_end_main _ _ _ h

theorem ok_add_text_plain (s : RendererState) (t : String) (h : linkLinesOk s) :
    linkLinesOk (add_text_plain s t) := by
  unfold add_text_plain
  split
  · exact h
  · dsimp only
    split
    · exact ok_push_styled _ _ (ok_push_prefix_if_needed _ h)
    · exact ok_push_styled _ _ (ok_push_prefix_if_needed _ h)

theorem ok_add_text (s : RendererState) (t : String) (h : linkLinesOk s) :
    linkLinesOk (add_text s t) := by
  unfold add_text
  split_ifs with h1
  · exact h
  · split
    · split_ifs
      · exact h
      · exact ok_add_text_plain _ _ h
    · exact ok_add_text_plain _ _ h

theorem ok_soft_break_plain (s : RendererState) (h : linkLinesOk s) :
    linkLinesOk (soft_break_plain s) := by
  unfold soft_break_plain
  dsimp only
  split
  · exact ok_push_text _ _ _ h
  · exact ok_push_text _ _ _ h

theorem ok_soft_break (s : RendererState) (h : linkLinesOk s) :
    linkLinesOk (soft_break s) := by
  unfold soft_break
  split_ifs with h1
  · exact h
  · split
    · split_ifs
      · exact h
      · exact ok_soft_break_plain _ h
    · exact ok_soft_break_plain _ h

theorem ok_hard_break (s : RendererState) (h : linkLinesOk s) :
    linkLinesOk (hard_break s) := by
  unfold hard_break
  split_ifs with h1
  · exact h
  · exact ok_flush _ _ h

theorem ok_add_inline_code_plain (s : RendererState) (c : String) (h : linkLinesOk s) :
    linkLinesOk (add_inline_code_plain s c) := by
  unfold add_inline_code_plain
  dsimp only
  split
  · exact ok_push_text _ _ _ (ok_push_prefix_if_needed _ h)
  · exact ok_push_text _ _ _ (ok_push_prefix_if_needed _ h)

theorem ok_add_inline_code (s : RendererState) (c : String) (h : linkLinesOk s) :
    linkLinesOk (add_inline_code s c) := by
  unfold add_inline_code
  split_ifs with h1
  · exact h
  · split
    · split_ifs
      · exact h
      · exact ok_add_inline_code_plain _ _ h
    · exact ok_add_inline_code_plain _ _ h

theorem ok_add_rule (s : RendererState) (h : linkLinesOk s) : linkLinesOk (add_rule s) :=
  ok_blank _ (ok_flush _ _ (ok_push_text _ _ _ (ok_flush _ _ h)))

theorem ok_add_task_marker (s : RendererState) (done : Bool) (h : linkLinesOk s) :
    linkLinesOk (add_task_marker s done) :=
  ok_push_text _ _ _ (ok_push_prefix_if_needed _ h)

theorem ok_render_event (hl : String → String → List (TermStyle × String))
    (s : RendererState) (ev : MdEventE) (h : linkLinesOk s) :
    linkLinesOk (render_event hl s ev) := by
  cases ev with
  | start tag => exact ok_start _ _ h
  | endTag tag => exact ok_end _ _ _ h
  | text t => exact ok_add_text _ _ h
  | code c => exact ok_add_inline_code _ _ h
  | html t => exact ok_add_text _ _ h
  | inlineHtml t => exact ok_add_text _ _ h
  | footnoteReference name => exact ok_add_text _ _ h
  | softBreak => exact ok_soft_break _ h
  | hardBreak => exact ok_hard_break _ h
  | rule => exact ok_add_rule _ h
  | taskListMarker done => exact ok_add_task_marker _ _ h
  | otherEvent => exact h

theorem ok_run_events (hl : String → String → List (TermStyle × String))
    (events : List MdEventE) (s : RendererState) (h : linkLinesOk s) :
    linkLinesOk (events.foldl (render_event hl) s) := by
  induction events generalizing s with
  | nil => exact h
  | cons ev events ih =>
    rw [List.foldl_cons]
    exact ih _ (ok_render_event hl s ev h)

theorem linkLinesOk_init : linkLinesOk {} := by
  intro l hl
  simp at hl

/-- C6 counterexample: on the event stream for the source "x\n\n[](u)" (a
paragraph, a blank, then a paragraph holding only an empty-labelled link),
the finished document keeps the sentinel in the link's `line` field, so not
every LinkRef has a valid, non-sentinel line index. -/
theorem c6_counterexample :
    ¬ ∀ l ∈ (render_markdown_events emptyHl emptyLinkEvents).links,
        l.line < (render_markdown_events emptyHl emptyLinkEvents).lines.length ∧
          l.line ≠ USIZE_MAX := by
  decide

/-- C6 (amended): for every highlighter and event stream, the finished
document has at least one line, and every LinkRef's `line` is either a valid
index into `lines` or still the `usize::MAX` sentinel (the sentinel survives
exactly when the link's pending line was never flushed, e.g. an empty-labelled
link in an otherwise empty paragraph right after a blank line). -/
theorem c6_lines_nonempty_links_valid_or_sentinel
    (hl : String → String → List (TermStyle × String)) (events : List MdEventE) :
    (render_markdown_events hl events).lines ≠ [] ∧
    ∀ l ∈ (render_markdown_events hl events).links,
      l.line < (render_markdown_events hl events).lines.length ∨ l.line = USIZE_MAX := by
  unfold render_markdown_events renderer_finish
  dsimp only
  have hok := ok_flush _ false (ok_run_events hl events {} linkLinesOk_init)
  split_ifs with hnil
  · refine ⟨by simp, ?_⟩
    intro l hl2
    have hm := hok l hl2
    rw [hnil] at hm
    simp at hm
    right
    exact hm
  · exact ⟨hnil, fun l hl2 => hok l hl2⟩

theorem usm_snapshots_eq (a : AppState) :
    (update_search_matches a).snapshots = a.snapshots := by
  unfold update_search_matches
  dsimp only
  split_ifs <;> rfl

theorem usm_next_revision_eq (a : AppState) :
    (update_search_matches a).next_revision = a.next_revision := by
  unfold update_search_matches
  dsimp only
  split_ifs <;> rfl

theorem sync_doc_snapshots_eq (a : AppState) (old_scroll : Nat) (fb : Bool) :
    (sync_doc_with_active_snapshot a old_scroll fb).snapshots = a.snapshots := by
  unfold sync_doc_with_active_snapshot
  split
  · rfl
  · dsimp only [sync_toc_selected_with_scroll, clamp_scroll, set_scroll_to_line,
      set_scroll_and_sync]
    split_ifs <;> (try split) <;> (try rw [usm_snapshots_eq]) <;> rfl

theorem sync_doc_next_revision_eq (a : AppState) (old_scroll : Nat) (fb : Bool) :
    (sync_doc_with_active_snapshot a old_scroll fb).next_revision = a.next_revision := by
  unfold sync_doc_with_active_snapshot
  split
  · rfl
  · dsimp only [sync_toc_selected_with_scroll, clamp_scroll, set_scroll_to_line,
      set_scroll_and_sync]
    split_ifs <;> (try split) <;> (try rw [usm_next_revision_eq]) <;> rfl

theorem evictLoop_fst (cap : Nat) (snaps : List WatchSnapshot) :
    ∀ (active : Nat) (selEv : Bool),
      (evictLoop cap snaps active selEv).1 = snaps.drop (snaps.length - cap) := by
  induction snaps with
  | nil => intro active selEv; simp [evictLoop]
  | cons x rest ih =>
    intro active selEv
    unfold evictLoop
    split_ifs with hlen hact
    · rw [ih]
      have hd : (x :: rest).length - cap = (rest.length - cap) + 1 := by
        simp at hlen ⊢; omega
      rw [hd, List.drop_succ_cons]
    · rw [ih]
      have hd : (x :: rest).length - cap = (rest.length - cap) + 1 := by
        simp at hlen ⊢; omega
      rw [hd, List.drop_succ_cons]
    · have hd : (x :: rest).length - cap = 0 := by
        simp at hlen ⊢; omega
      rw [hd, List.drop_zero]

/-- C7: `push_watch_snapshot` refuses a snapshot whose diff against the last
stored snapshot is empty, returning false and leaving the whole state (in
particular the store contents and the next revision id) unchanged; otherwise
it returns true, consumes the next revision id, pushes a snapshot carrying
that id, and evicts from the front until the ring length is within the
history capacity. -/
theorem c7_append_refuse_or_push (a : AppState) (r : RenderedDocument) (wall inst : Nat) :
    ((last_diff a r).hunks = [] ∧ (last_diff a r).added = 0 ∧ (last_diff a r).removed = 0 →
      push_watch_snapshot a r wall inst = (a, false)) ∧
    (¬ ((last_diff a r).hunks = [] ∧ (last_diff a r).added = 0 ∧
        (last_diff a r).removed = 0) →
      (push_watch_snapshot a r wall inst).2 = true ∧
      (push_watch_snapshot a r wall inst).1.next_revision = a.next_revision + 1 ∧
      (push_watch_snapshot a r wall inst).1.snapshots =
        (a.snapshots ++ [(⟨a.next_revision, wall, inst, r, last_diff a r⟩ : WatchSnapshot)]).drop
          (a.snapshots.length + 1 - a.history_capacity) ∧
      (push_watch_snapshot a r wall inst).1.snapshots.length =
        min (a.snapshots.length + 1) a.history_capacity) := by
  constructor
  · intro hc
    unfold push_watch_snapshot
    dsimp only
    rw [if_pos hc]
  · intro hc
    unfold push_watch_snapshot
    dsimp only
    rw [if_neg hc]
    split_ifs with hw hse
    · refine ⟨rfl, ?_, ?_, ?_⟩
      · rw [sync_doc_next_revision_eq]
      · rw [sync_doc_snapshots_eq]
        dsimp only
        rw [evictLoop_fst]
        simp
      · rw [sync_doc_snapshots_eq]
        dsimp only
        rw [evictLoop_fst, List.length_drop]
        simp
        omega
    · refine ⟨rfl, ?_, ?_, ?_⟩
      · rw [sync_doc_next_revision_eq]
      · rw [sync_doc_snapshots_eq]
        dsimp only
        rw [evictLoop_fst]
        simp
      · rw [sync_doc_snapshots_eq]
        dsimp only
        rw [evictLoop_fst, List.length_drop]
        simp
        omega
    · refine ⟨rfl, rfl, ?_, ?_⟩
      · dsimp only
        rw [evictLoop_fst]
        simp
      · dsimp only
        rw [evictLoop_fst, List.length_drop]
        simp
        omega

/-- Witness for C7: appending an unchanged rendering onto `appRefuse` is
refused and leaves the state untouched. -/
theorem c7_witness : push_watch_snapshot appRefuse docOneLine 5 7 = (appRefuse, false) :=
  (c7_append_refuse_or_push appRefuse docOneLine 5 7).1 (by decide)

/-- C8 (amended): every scroll change made through `set_scroll_and_sync`
(hence all key scrolls, jumps, search and link moves, which all route through
it) and every snapshot activation through `sync_doc_with_active_snapshot`
(with a valid active index) leaves the TOC selection at the largest-indexed
TOC entry whose line is at or before the scroll, or 0 when none qualifies.
The draw-time viewport clamp is excluded: it can change scroll without
re-syncing (see the counterexample). -/
theorem c8_toc_selected_synced :
    (∀ (a : AppState) (v : Nat),
      isLargestTocAtOrBefore (set_scroll_and_sync a v).doc.toc
        (set_scroll_and_sync a v).scroll (set_scroll_and_sync a v).toc_selected) ∧
    (∀ (a : AppState) (old_scroll : Nat) (fb : Bool),
      (a.snapshots.get? a.active_snapshot).isSome = true →
      isLargestTocAtOrBefore (sync_doc_with_active_snapshot a old_scroll fb).doc.toc
        (sync_doc_with_active_snapshot a old_scroll fb).scroll
        (sync_doc_with_active_snapshot a old_scroll fb).toc_selected) := by
  constructor
  · intro a v
    exact rposition_largest_toc _ _
  · intro a old_scroll fb hsome
    cases hq : a.snapshots.get? a.active_snapshot with
    | none => rw [hq] at hsome; simp at hsome
    | some snapshot =>
      unfold sync_doc_with_active_snapshot
      rw [hq]
      exact rposition_largest_toc _ _

/-- Witness for C8's amended statement at a concrete state with a valid
active snapshot index. -/
theorem c8_witness :
    isLargestTocAtOrBefore (sync_doc_with_active_snapshot appRefuse 0 false).doc.toc
      (sync_doc_with_active_snapshot appRefuse 0 false).scroll
      (sync_doc_with_active_snapshot appRefuse 0 false).toc_selected :=
  c8_toc_selected_synced.2 appRefuse 0 false (by decide)

/-- C8 counterexample: scrolling `appTwenty` to line 10 selects TOC entry 1;
the draw-time viewport update (content height 16) then clamps scroll down to
5 — a scroll change — but leaves the TOC selection at 1, although the largest
entry at or before scroll 5 is entry 0. -/
theorem c8_counterexample :
    (set_scroll_and_sync appTwenty 10).scroll = 10 ∧
    (set_scroll_and_sync appTwenty 10).toc_selected = 1 ∧
    (draw_viewport_clamp (set_scroll_and_sync appTwenty 10) 16).scroll = 5 ∧
    (draw_viewport_clamp (set_scroll_and_sync appTwenty 10) 16).toc_selected = 1 ∧
    ¬ isLargestTocAtOrBefore
        (draw_viewport_clamp (set_scroll_and_sync appTwenty 10) 16).doc.toc
        (draw_viewport_clamp (set_scroll_and_sync appTwenty 10) 16).scroll
        (draw_viewport_clamp (set_scroll_and_sync appTwenty 10) 16).toc_selected := by
  refine ⟨by decide, by decide, by decide, by decide, ?_⟩
  intro hI
  have ht : (draw_viewport_clamp (set_scroll_and_sync appTwenty 10) 16).doc.toc =
      [(⟨1, "A", 0⟩ : TocEntry), ⟨2, "B", 10⟩] := by decide
  have hsc : (draw_viewport_clamp (set_scroll_and_sync appTwenty 10) 16).scroll = 5 := by
    decide
  have hsel : (draw_viewport_clamp (set_scroll_and_sync appTwenty 10) 16).toc_selected = 1 := by
    decide
  rw [ht, hsc, hsel] at hI
  rcases hI with ⟨h0, _⟩ | ⟨e, he, hle, _⟩
  · exact absurd h0 (by decide)
  · simp at he
    subst he
    exact absurd hle (by decide)

/-- Witness for C6's amended statement at the concrete empty-link event
stream: the document is non-empty and its (sentinel-carrying) link satisfies
the valid-or-sentinel disjunction. -/
theorem c6_witness :
    (render_markdown_events emptyHl emptyLinkEvents).lines ≠ [] ∧
    ((⟨"u", "u", USIZE_MAX⟩ : LinkRef).line <
        (render_markdown_events emptyHl emptyLinkEvents).lines.length ∨
      (⟨"u", "u", USIZE_MAX⟩ : LinkRef).line = USIZE_MAX) :=
  ⟨(c6_lines_nonempty_links_valid_or_sentinel emptyHl emptyLinkEvents).1,
    (c6_lines_nonempty_links_valid_or_sentinel emptyHl emptyLinkEvents).2
      ⟨"u", "u", USIZE_MAX⟩ (by
        have h : (render_markdown_events emptyHl emptyLinkEvents).links =
            [⟨"u", "u", USIZE_MAX⟩] := by decide
        rw [h]
        exact List.mem_singleton.mpr rfl)⟩
